import Mathlib

/-!
Verification of the histogram/statistics slice of the repository.

The development shallowly embeds:
  * `HistogramOptionsImpl` (source/common/stats/histogram_options_impl.{h,cc}),
  * `Utility::createHistogramOptions` (source/common/config/utility.cc),
  * `HistogramStatisticsImpl` (source/common/stats/histogram_impl.{h,cc}),
  * `HistogramImpl` and `NullHistogramImpl` (source/common/stats/histogram_impl.h),
  * and, modelled from the spec because the circllhist library is not part of
    this repository's sources, the `ApproximateHistogram` sketch.

Doubles are modelled as rationals.  C++ strings are modelled as `List Char`;
`fmtChars` models the default `fmt::format` rendering of a numeric value
(shortest terminating decimal form).  Vectors are modelled as lists; a raw
write through `std::vector::data()` or `operator[]` beyond the vector's size
cannot change the vector's size, which the model reflects by dropping such
writes (they are undefined behaviour in the source).
-/

namespace EnvoyStats

/-- Characters of the textual model of C++ strings. -/
abbrev Chars := List Char

/-- The decimal digit character for `n % 10`. -/
def digitChar (n : Nat) : Char :=
  Char.ofNat (48 + n % 10)

/-- Fuel-driven decimal rendering of a natural number, most significant digit
first.  The fuel is always given as at least the number of digits. -/
def natCharsAux : Nat → Nat → Chars
  | 0, _ => []
  | fuel + 1, n =>
    if n < 10 then [digitChar n]
    else natCharsAux fuel (n / 10) ++ [digitChar (n % 10)]

/-- Decimal rendering of a natural number. -/
def natChars (n : Nat) : Chars :=
  natCharsAux (n + 1) n

/-- Smallest exponent `k ≤ 63` with `d ∣ 10 ^ k`, if any.  Every denominator of
a binary floating-point value admits such a `k`. -/
def decExp (d : Nat) : Option Nat :=
  (List.range 64).find? (fun k => d ∣ 10 ^ k)

/-- Models the default `fmt::format` rendering of a numeric (double) value:
integers render with no decimal point, terminating decimals render with the
shortest fractional part, and (unreachable for binary doubles) non-terminating
rationals fall back to a fraction form.  Only the characters `0`–`9`, `-`, `.`
and `/` can occur. -/
def fmtChars (q : ℚ) : Chars :=
  let sign : Chars := if q < 0 then ['-'] else []
  let n : Nat := q.num.natAbs
  match decExp q.den with
  | some 0 => sign ++ natChars n
  | some (k + 1) =>
    let m := n * 10 ^ (k + 1) / q.den
    let ds := natChars m
    let ds := List.replicate (k + 2 - ds.length) '0' ++ ds
    sign ++ ds.take (ds.length - (k + 1)) ++ '.' :: ds.drop (ds.length - (k + 1))
  | none => sign ++ natChars n ++ '/' :: natChars q.den

/-- Models `absl::StrJoin`: concatenation of the pieces with `sep` between
consecutive pieces. -/
def joinSep (sep : Chars) : List Chars → Chars
  | [] => []
  | [p] => p
  | p :: ps => p ++ sep ++ joinSep sep ps

/-- Splitting a character list on the two-character separator `c d`
(the model of `absl::StrSplit` / splitting a string on a two-character
separator such as `", "`). -/
def split2 (c d : Char) : Chars → List Chars
  | x :: y :: rest =>
    if x = c ∧ y = d then
      [] :: split2 c d rest
    else
      match split2 c d (y :: rest) with
      | [] => [[x]]
      | h :: t => (x :: h) :: t
  | [x] => [[x]]
  | [] => [[]]

/-- The histogram options object: the validated quantile and bucket
configuration (source/common/stats/histogram_options_impl.h). -/
structure HistogramOptionsImpl where
  supported_quantiles_ : List ℚ
  supported_buckets_ : List ℚ
deriving DecidableEq

/-- Source `HistogramOptionsImpl::defaultQuantiles`
(source/common/stats/histogram_options_impl.cc, lines 31–35). -/
def defaultQuantiles : List ℚ :=
  [0, 0.25, 0.5, 0.75, 0.90, 0.95, 0.99, 0.995, 0.999, 1]

/-- Source `HistogramOptionsImpl::defaultBuckets`
(source/common/stats/histogram_options_impl.cc, lines 37–42). -/
def defaultBuckets : List ℚ :=
  [0.5, 1, 5, 10, 25, 50, 100, 250, 500, 1000,
   2500, 5000, 10000, 30000, 60000, 300000, 600000, 1800000, 3600000]

/-- The message of the `EnvoyException` thrown for an out-of-range quantile:
`"Quantile {} is not valid."` with the offending value formatted in. -/
def quantileErrorMsg (q : ℚ) : Chars :=
  ['Q', 'u', 'a', 'n', 't', 'i', 'l', 'e', ' '] ++ fmtChars q ++
    [' ', 'i', 's', ' ', 'n', 'o', 't', ' ', 'v', 'a', 'l', 'i', 'd', '.']

/-- The validation loop of the `HistogramOptionsImpl` constructor: the first
element of the list with `quantile < 0.0 || quantile > 100.0`, if any. -/
def firstBadQuantile : List ℚ → Option ℚ
  | [] => none
  | q :: qs => if q < 0 ∨ q > 100 then some q else firstBadQuantile qs

/-- The two-argument `HistogramOptionsImpl` constructor
(source/common/stats/histogram_options_impl.cc, lines 12–29).  The parameter
order is that of the C++ declaration: quantiles first, buckets second.  A
thrown `EnvoyException` is modelled as `Except.error` carrying the message. -/
def HistogramOptionsImpl.make (quantiles buckets : List ℚ) :
    Except Chars HistogramOptionsImpl :=
  match firstBadQuantile quantiles with
  | some q => Except.error (quantileErrorMsg q)
  | none =>
    let supported_quantiles := if quantiles ≠ [] then quantiles else defaultQuantiles
    let supported_buckets := if buckets ≠ [] then buckets else defaultBuckets
    Except.ok ⟨supported_quantiles, supported_buckets⟩

/-- The `stats_config()` fragment of the bootstrap configuration consumed by
`Utility::createHistogramOptions`. -/
structure StatsConfig where
  histogram_buckets : List ℚ
  histogram_quantiles : List ℚ

/-- The bootstrap configuration object (only the part used here). -/
structure Bootstrap where
  stats_config : StatsConfig

/-- Source `Utility::createHistogramOptions` (source/common/config/utility.cc,
lines 239–256): copies the configured bucket and quantile sequences and
invokes the `HistogramOptionsImpl` constructor, passing `buckets` as the first
argument and `quantiles` as the second — exactly as the source does. -/
def createHistogramOptions (bootstrap : Bootstrap) :
    Except Chars HistogramOptionsImpl :=
  let buckets := bootstrap.stats_config.histogram_buckets
  let quantiles := bootstrap.stats_config.histogram_quantiles
  HistogramOptionsImpl.make buckets quantiles

/-- Modelled from the spec: the circllhist library (`histogram_t`,
`hist_approx_quantile`, `hist_approx_count_below`, `hist_sample_count`,
`hist_approx_sum`) is not part of this repository's sources.  A histogram
snapshot is modelled by the query interface the statistics code consumes:
its per-quantile value, its per-threshold approximate count below, its exact
sample count and its approximate sum (spec §4.1). -/
structure histogram_t where
  quantileF : ℚ → ℚ
  countBelowF : ℚ → ℚ
  sampleCountF : ℚ
  approxSumF : ℚ

/-- A bulk write through a raw `double*` obtained from `vector::data()`:
positions below the destination's size receive the source values in order;
writes past the destination's size cannot change the vector and are dropped
(out-of-range they are undefined behaviour in the source).  The destination's
length never changes. -/
def writeThrough (dst src : List ℚ) : List ℚ :=
  src.take dst.length ++ dst.drop src.length

/-- The statistics snapshot object
(source/common/stats/histogram_impl.h, lines 21–47, plus the `options_`
member the .cc revision stores). -/
structure HistogramStatisticsImpl where
  options_ : HistogramOptionsImpl
  computed_quantiles_ : List ℚ
  computed_buckets_ : List ℚ
  sample_count_ : ℚ
  sample_sum_ : ℚ

/-- Accessor `HistogramStatisticsImpl::supportedQuantiles()`. -/
def HistogramStatisticsImpl.supportedQuantiles (s : HistogramStatisticsImpl) : List ℚ :=
  s.options_.supported_quantiles_

/-- Accessor `HistogramStatisticsImpl::supportedBuckets()`. -/
def HistogramStatisticsImpl.supportedBuckets (s : HistogramStatisticsImpl) : List ℚ :=
  s.options_.supported_buckets_

/-- The two-argument `HistogramStatisticsImpl` constructor
(source/common/stats/histogram_impl.cc, lines 14–24).  Both computed vectors
are default-constructed empty (the constructor has no member-initializer
list); `hist_approx_quantile` then writes `supportedQuantiles().size()`
results through `computed_quantiles_.data()`, and the bucket loop assigns
through `computed_buckets_[i]` — neither of which can change the size of an
empty vector.  `sample_count_` and `sample_sum_` are assigned from the
histogram. -/
def HistogramStatisticsImpl.construct (histogram_ptr : histogram_t)
    (options : HistogramOptionsImpl) : HistogramStatisticsImpl :=
  let computed_quantiles : List ℚ :=
    writeThrough [] (options.supported_quantiles_.map histogram_ptr.quantileF)
  let computed_buckets : List ℚ :=
    (List.range options.supported_buckets_.length).foldl
      (fun l i => l.set i (histogram_ptr.countBelowF (options.supported_buckets_.getD i 0)))
      []
  { options_ := options
    computed_quantiles_ := computed_quantiles
    computed_buckets_ := computed_buckets
    sample_count_ := histogram_ptr.sampleCountF
    sample_sum_ := histogram_ptr.approxSumF }

/-- Source `HistogramStatisticsImpl::refresh`
(source/common/stats/histogram_impl.cc, lines 47–63): fills
`computed_quantiles_` with `0.0`, writes the fresh quantile results through
its `data()` pointer, reassigns `sample_count_` and `sample_sum_`, and
rebuilds `computed_buckets_` by `clear()` followed by one `emplace_back` per
supported bucket. -/
def HistogramStatisticsImpl.refresh (s : HistogramStatisticsImpl)
    (new_histogram_ptr : histogram_t) : HistogramStatisticsImpl :=
  let computed_quantiles :=
    writeThrough (s.computed_quantiles_.map (fun _ => 0))
      (s.options_.supported_quantiles_.map new_histogram_ptr.quantileF)
  let computed_buckets := s.options_.supported_buckets_.map new_histogram_ptr.countBelowF
  { s with
    computed_quantiles_ := computed_quantiles
    computed_buckets_ := computed_buckets
    sample_count_ := new_histogram_ptr.sampleCountF
    sample_sum_ := new_histogram_ptr.approxSumF }

/-- Source `HistogramStatisticsImpl::quantileSummary`
(source/common/stats/histogram_impl.cc, lines 26–33): for each index `i`
below `supportedQuantiles().size()`, render
`fmt::format("P{}: {}", 100 * supportedQuantiles()[i], computed_quantiles_[i])`
and join the pieces with `", "`.  An out-of-range `operator[]` read is
modelled by `getD _ 0`. -/
def HistogramStatisticsImpl.quantileSummary (s : HistogramStatisticsImpl) : Chars :=
  joinSep [',', ' ']
    ((List.range s.supportedQuantiles.length).map (fun i =>
      'P' :: fmtChars (100 * s.supportedQuantiles.getD i 0) ++
        ':' :: ' ' :: fmtChars (s.computed_quantiles_.getD i 0)))

/-- Source `HistogramStatisticsImpl::bucketSummary`
(source/common/stats/histogram_impl.cc, lines 35–42): for each index `i`
below `supportedBuckets().size()`, render
`fmt::format("B{}: {}", supportedBuckets()[i], computed_buckets_[i])` and
join the pieces with `", "`. -/
def HistogramStatisticsImpl.bucketSummary (s : HistogramStatisticsImpl) : Chars :=
  joinSep [',', ' ']
    ((List.range s.supportedBuckets.length).map (fun i =>
      'B' :: fmtChars (s.supportedBuckets.getD i 0) ++
        ':' :: ' ' :: fmtChars (s.computed_buckets_.getD i 0)))

/-- A stats tag (envoy/stats/stats.h); only its shape matters here. -/
structure Tag where
  name : Chars
  value : Chars
deriving DecidableEq

/-- One call on the parent `Store` observable from `HistogramImpl`:
`deliverHistogramToSinks(*this, value)` carries the histogram object and the
recorded value. -/
inductive StoreCall where
  | deliverHistogramToSinksNamed (histogramName : Chars) (value : Nat)
deriving DecidableEq

/-- Source `HistogramImpl` (source/common/stats/histogram_impl.h, lines 52–72): the
heap histogram front.  Only the state its own methods read is modelled:
`name_` plus the `MetricImpl` fields. -/
structure HistogramImpl where
  tag_extracted_name_ : Chars
  tags_ : List Tag
  name_ : Chars
deriving DecidableEq

/-- Accessor `HistogramImpl::name()`. -/
def HistogramImpl.name (h : HistogramImpl) : Chars := h.name_

/-- Source `HistogramImpl::used()` — the body is literally `return true`. -/
def HistogramImpl.used (_ : HistogramImpl) : Bool := true

/-- Source `HistogramImpl::recordValue(value)` — the body is exactly
`parent_.deliverHistogramToSinks(*this, value)`: the returned pair is the
(unchanged) histogram state together with the single call made on the parent
store. -/
def HistogramImpl.recordValue (h : HistogramImpl) (value : Nat) :
    HistogramImpl × List StoreCall :=
  (h, [StoreCall.deliverHistogramToSinksNamed h.name_ value])

/-- Source `NullHistogramImpl` (source/common/stats/histogram_impl.h, lines 78–88):
stateless. -/
structure NullHistogramImpl where
  mk ::
deriving DecidableEq

/-- Accessor `NullHistogramImpl::name()` — returns `""`. -/
def NullHistogramImpl.name (_ : NullHistogramImpl) : Chars := []

/-- Accessor `NullHistogramImpl::nameCStr()` — returns `""`. -/
def NullHistogramImpl.nameCStr (_ : NullHistogramImpl) : Chars := []

/-- Accessor `NullHistogramImpl::tagExtractedName()` — returns `""`. -/
def NullHistogramImpl.tagExtractedName (_ : NullHistogramImpl) : Chars := []

/-- Accessor `NullHistogramImpl::tags()` — returns `{}`. -/
def NullHistogramImpl.tags (_ : NullHistogramImpl) : List Tag := []

/-- Source `NullHistogramImpl::recordValue(uint64_t)` — the body is empty: the value
is discarded and the state is returned unchanged (it can never fail: the
model is a total function). -/
def NullHistogramImpl.recordValue (s : NullHistogramImpl) (_ : Nat) : NullHistogramImpl :=
  s

/-- Source `NullHistogramImpl::used()` — returns `false`. -/
def NullHistogramImpl.used (_ : NullHistogramImpl) : Bool := false

/-- Modelled from the spec: the log-linear bin key of a sample value
(spec §3, §4.1 — the circllhist sketch is not under src/).  `0` and
non-positive values get the dedicated key `(0, 0)`; a positive value `v` gets
`(e, m)` where `10^e ≤ v < 10^(e+1)` and `m = ⌊v / 10^(e-1)⌋ ∈ [10, 99]` is
its two-digit mantissa bucket. -/
def binOf (v : ℚ) : ℤ × ℤ :=
  if v ≤ 0 then (0, 0)
  else
    let e := Int.log 10 v
    (e, ⌊v / (10 : ℚ) ^ (e - 1)⌋)

/-- Modelled from the spec: the `ApproximateHistogram` sketch state — a
bounded multiset of (bin-key) occurrences, one per recorded sample
(spec §3: "an opaque bounded collection of (bin-key → count) pairs"). -/
abbrev ApproximateHistogram := Multiset (ℤ × ℤ)

/-- Modelled from the spec: a histogram is created empty. -/
def ApproximateHistogram.emptyHist : ApproximateHistogram := 0

/-- Modelled from the spec: `insert(value)` places the value into its
log-linear bin, incrementing that bin's count by one (spec §4.1). -/
def ApproximateHistogram.insert (h : ApproximateHistogram) (v : ℚ) : ApproximateHistogram :=
  binOf v ::ₘ h

/-- Modelled from the spec: `mergeFrom(other)` adds, for every bin of
`other`, its count into the matching bin of `self` (spec §4.1). -/
def ApproximateHistogram.mergeFrom (self other : ApproximateHistogram) : ApproximateHistogram :=
  self + other

/-- Modelled from the spec: the histogram built by inserting a list of raw
samples, in order, into an empty histogram. -/
def fromSamples (l : List ℚ) : ApproximateHistogram :=
  l.foldl ApproximateHistogram.insert ApproximateHistogram.emptyHist

/-- Modelled from the spec: `totalCount()` — exact, each insert increments by
exactly one (spec §4.1). -/
def ApproximateHistogram.totalCount (h : ApproximateHistogram) : Nat :=
  Multiset.card h

/-- Modelled from the spec: the lower representable bound of a bin key. -/
def binLower : ℤ × ℤ → ℚ
  | (e, m) => (m : ℚ) * (10 : ℚ) ^ (e - 1)

/-- Modelled from the spec: the upper representable bound of a bin key. -/
def binUpper : ℤ × ℤ → ℚ
  | (e, m) => ((m : ℚ) + 1) * (10 : ℚ) ^ (e - 1)

/-- Modelled from the spec: `countBelow(threshold)` — each sample whose bin
lies entirely at or below the threshold counts fully; a sample in the bin
straddling the threshold counts by linear interpolation inside the bin
(spec §4.1). -/
def ApproximateHistogram.countBelow (h : ApproximateHistogram) (t : ℚ) : ℚ :=
  (h.map (fun b =>
    if binUpper b ≤ t then (1 : ℚ)
    else if binLower b ≤ t then (t - binLower b) / (binUpper b - binLower b)
    else 0)).sum

/-- A concrete histogram snapshot used for evaluating the code at failing
inputs: the identity as quantile map, the identity as count-below map,
sample count 7 and sum 100. -/
def histId : histogram_t :=
  { quantileF := fun q => q, countBelowF := fun t => t, sampleCountF := 7, approxSumF := 100 }

/-- A second concrete histogram snapshot (distinct from `histId`). -/
def histShift : histogram_t :=
  { quantileF := fun q => q + 1, countBelowF := fun t => t + 2, sampleCountF := 5, approxSumF := 50 }

/-- The options object holding the two default sequences. -/
def defaultOptions : HistogramOptionsImpl :=
  { supported_quantiles_ := defaultQuantiles, supported_buckets_ := defaultBuckets }

end EnvoyStats

namespace EnvoyStats

/-! ### Helper lemmas about the options constructor -/

theorem firstBadQuantile_eq_none {qs : List ℚ} :
    firstBadQuantile qs = none ↔ ∀ q ∈ qs, ¬(q < 0 ∨ q > 100) := by
  induction qs with
  | nil => simp [firstBadQuantile]
  | cons a l ih =>
    simp only [firstBadQuantile]
    by_cases h : a < 0 ∨ a > 100
    · rw [if_pos h]
      constructor
      · intro hc
        exact absurd hc (by simp)
      · intro hall
        exact absurd h (hall a (List.mem_cons_self a l))
    · rw [if_neg h, ih]
      constructor
      · intro hall q hq
        rcases List.mem_cons.mp hq with rfl | hq'
        · exact h
        · exact hall q hq'
      · intro hall q hq
        exact hall q (List.mem_cons_of_mem a hq)

theorem make_eq_error_of_some {qs bs : List ℚ} {q : ℚ}
    (h : firstBadQuantile qs = some q) :
    HistogramOptionsImpl.make qs bs = Except.error (quantileErrorMsg q) := by
  simp only [HistogramOptionsImpl.make, h]

theorem make_eq_ok_of_none {qs bs : List ℚ} (h : firstBadQuantile qs = none) :
    HistogramOptionsImpl.make qs bs = Except.ok
      ⟨if qs ≠ [] then qs else defaultQuantiles,
       if bs ≠ [] then bs else defaultBuckets⟩ := by
  simp only [HistogramOptionsImpl.make, h]

theorem firstBadQuantile_eq_some {qs : List ℚ} {q : ℚ}
    (h : firstBadQuantile qs = some q) : q ∈ qs ∧ (q < 0 ∨ q > 100) := by
  induction qs with
  | nil => simp [firstBadQuantile] at h
  | cons a l ih =>
    by_cases ha : a < 0 ∨ a > 100
    · simp [firstBadQuantile, ha] at h
      subst h
      exact ⟨List.mem_cons_self a l, ha⟩
    · simp [firstBadQuantile, ha] at h
      rcases ih h with ⟨hm, hb⟩
      exact ⟨List.mem_cons_of_mem a hm, hb⟩

/-- Claim C4: construction of `HistogramOptionsImpl` fails iff the supplied
quantile sequence contains an element outside `[0, 100]`; the error message
names the (first) offending quantile value; the bucket sequence is never
validated and never causes failure; every all-in-range quantile sequence
constructs successfully. -/
theorem optionsImpl_error_iff_bad_quantile (qs bs : List ℚ) :
    ((∃ e, HistogramOptionsImpl.make qs bs = Except.error e) ↔ ∃ q ∈ qs, q < 0 ∨ q > 100)
    ∧ (∀ e, HistogramOptionsImpl.make qs bs = Except.error e →
        ∃ q ∈ qs, (q < 0 ∨ q > 100) ∧ e = quantileErrorMsg q)
    ∧ ((∀ q ∈ qs, 0 ≤ q ∧ q ≤ 100) → ∃ o, HistogramOptionsImpl.make qs bs = Except.ok o)
    ∧ (∀ bs', (∃ o, HistogramOptionsImpl.make qs bs = Except.ok o) ↔
        ∃ o, HistogramOptionsImpl.make qs bs' = Except.ok o) := by
  cases h : firstBadQuantile qs with
  | none =>
    have hnone := firstBadQuantile_eq_none.mp h
    refine ⟨?_, ?_, ?_, ?_⟩
    · rw [make_eq_ok_of_none h]
      constructor
      · rintro ⟨e, he⟩
        exact absurd he (by simp)
      · rintro ⟨q, hq, hbad⟩
        exact absurd hbad (hnone q hq)
    · intro e he
      rw [make_eq_ok_of_none h] at he
      exact absurd he (by simp)
    · intro _
      exact ⟨_, make_eq_ok_of_none h⟩
    · intro bs'
      rw [make_eq_ok_of_none h, make_eq_ok_of_none h]
      exact ⟨fun _ => ⟨_, rfl⟩, fun _ => ⟨_, rfl⟩⟩
  | some q =>
    have hsome := firstBadQuantile_eq_some h
    refine ⟨?_, ?_, ?_, ?_⟩
    · rw [make_eq_error_of_some h]
      exact ⟨fun _ => ⟨q, hsome.1, hsome.2⟩, fun _ => ⟨_, rfl⟩⟩
    · intro e he
      rw [make_eq_error_of_some h] at he
      injection he with he
      exact ⟨q, hsome.1, hsome.2, he.symm⟩
    · intro hall
      rcases hsome with ⟨hm, hbad⟩
      rcases hall q hm with ⟨h0, h100⟩
      rcases hbad with hlt | hgt
      · exact absurd hlt (not_lt.mpr h0)
      · exact absurd hgt (not_lt.mpr h100)
    · intro bs'
      rw [make_eq_error_of_some h, make_eq_error_of_some h]

/-- Witness for C4: the all-in-range sequence `[0, 100]` constructs
successfully regardless of the bucket sequence `[123]`. -/
theorem optionsImpl_error_iff_bad_quantile_witness :
    (∀ q ∈ ([0, 100] : List ℚ), 0 ≤ q ∧ q ≤ 100)
    ∧ ∃ o, HistogramOptionsImpl.make [0, 100] [123] = Except.ok o :=
  ⟨by decide, (optionsImpl_error_iff_bad_quantile [0, 100] [123]).2.2.1 (by decide)⟩

/-- Claim C5: construction with an empty quantile sequence yields exactly the
10-element default quantile list, and with an empty bucket sequence exactly
the 19-element default bucket list. -/
theorem optionsImpl_defaults_on_empty (qs bs : List ℚ) (o : HistogramOptionsImpl)
    (h : HistogramOptionsImpl.make qs bs = Except.ok o) :
    (qs = [] →
      o.supported_quantiles_ = [0, 0.25, 0.5, 0.75, 0.90, 0.95, 0.99, 0.995, 0.999, 1]
      ∧ o.supported_quantiles_.length = 10)
    ∧ (bs = [] →
      o.supported_buckets_ =
        [0.5, 1, 5, 10, 25, 50, 100, 250, 500, 1000,
         2500, 5000, 10000, 30000, 60000, 300000, 600000, 1800000, 3600000]
      ∧ o.supported_buckets_.length = 19) := by
  constructor
  · rintro rfl
    rw [make_eq_ok_of_none (show firstBadQuantile [] = none from rfl)] at h
    injection h with h
    subst h
    exact ⟨by simp [defaultQuantiles], by simp [defaultQuantiles]⟩
  · rintro rfl
    cases hq : firstBadQuantile qs with
    | none =>
      rw [make_eq_ok_of_none hq] at h
      injection h with h
      subst h
      exact ⟨by simp [defaultBuckets], by simp [defaultBuckets]⟩
    | some q =>
      rw [make_eq_error_of_some hq] at h
      exact absurd h (by simp)

/-- Witness for C5: constructing from two empty sequences succeeds and
returns the two default lists. -/
theorem optionsImpl_defaults_on_empty_witness :
    (HistogramOptionsImpl.make [] [] = Except.ok defaultOptions)
    ∧ (defaultOptions.supported_quantiles_ =
        [0, 0.25, 0.5, 0.75, 0.90, 0.95, 0.99, 0.995, 0.999, 1]
      ∧ defaultOptions.supported_quantiles_.length = 10) :=
  ⟨rfl, (optionsImpl_defaults_on_empty [] [] defaultOptions rfl).1 rfl⟩

/-- Claim C1, failing evaluation: `Utility::createHistogramOptions` passes the
configured bucket bounds into the constructor's *quantile* parameter and the
configured quantile percentiles into its *bucket* parameter.  Consequently a
bootstrap with bucket bound 500 and quantile 50 is rejected with
`"Quantile 500 is not valid."`, and a bootstrap with bucket bound 50 and
quantile 25 yields `supportedQuantiles() = {50}` and
`supportedBuckets() = {25}` — the reverse of what the claim states. -/
theorem createHistogramOptions_swaps_arguments :
    createHistogramOptions ⟨⟨[500], [50]⟩⟩ = Except.error (quantileErrorMsg 500)
    ∧ quantileErrorMsg 500 =
        ['Q', 'u', 'a', 'n', 't', 'i', 'l', 'e', ' ', '5', '0', '0', ' ',
         'i', 's', ' ', 'n', 'o', 't', ' ', 'v', 'a', 'l', 'i', 'd', '.']
    ∧ createHistogramOptions ⟨⟨[50], [25]⟩⟩ =
        Except.ok { supported_quantiles_ := [50], supported_buckets_ := [25] } :=
  ⟨rfl, rfl, rfl⟩

/-- Claim C2, failing evaluation: the two-argument `HistogramStatisticsImpl`
constructor leaves both computed vectors empty (it never sizes them), so
immediately after construction `computedQuantiles()` has length 0 while
`supportedQuantiles()` has length 10, and `computedBuckets()` has length 0
while `supportedBuckets()` has length 19 — violating the claimed invariant
(and the `ASSERT`s `refresh` itself states). -/
theorem construct_breaks_length_invariant :
    (HistogramStatisticsImpl.construct histId defaultOptions).computed_quantiles_.length = 0
    ∧ (HistogramStatisticsImpl.construct histId defaultOptions).computed_buckets_.length = 0
    ∧ (HistogramStatisticsImpl.construct histId defaultOptions).supportedQuantiles.length = 10
    ∧ (HistogramStatisticsImpl.construct histId defaultOptions).supportedBuckets.length = 19 :=
  ⟨rfl, rfl, rfl, rfl⟩

/-- Claim C3, failing evaluation: after construction from a histogram, the
snapshot's `sample_count_` and `sample_sum_` are taken from the histogram,
but `computed_quantiles_` and `computed_buckets_` remain empty even though
the supported sequences are non-empty: the four outputs are *not* all
recomputed on construction. -/
theorem construct_computes_only_count_and_sum :
    (HistogramStatisticsImpl.construct histShift defaultOptions).computed_quantiles_ = []
    ∧ (HistogramStatisticsImpl.construct histShift defaultOptions).computed_buckets_ = []
    ∧ (HistogramStatisticsImpl.construct histShift defaultOptions).supportedQuantiles ≠ []
    ∧ (HistogramStatisticsImpl.construct histShift defaultOptions).supportedBuckets ≠ []
    ∧ (HistogramStatisticsImpl.construct histShift defaultOptions).sample_count_ = histShift.sampleCountF
    ∧ (HistogramStatisticsImpl.construct histShift defaultOptions).sample_sum_ = histShift.approxSumF :=
  ⟨rfl, rfl, by simp [HistogramStatisticsImpl.construct, HistogramStatisticsImpl.supportedQuantiles, defaultOptions, defaultQuantiles],
   by simp [HistogramStatisticsImpl.construct, HistogramStatisticsImpl.supportedBuckets, defaultOptions, defaultBuckets],
   rfl, rfl⟩

/-- Claim C9: `NullHistogramImpl::recordValue` accepts and discards every value
(it is a total function returning the state unchanged, so it never fails and
changes no observable state), `used()` is `false`, and every name/tag
accessor returns an empty value. -/
theorem nullHistogram_noop (s : NullHistogramImpl) (v : Nat) :
    s.recordValue v = s
    ∧ s.used = false
    ∧ s.name = []
    ∧ s.nameCStr = []
    ∧ s.tagExtractedName = []
    ∧ s.tags = [] :=
  ⟨rfl, rfl, rfl, rfl, rfl, rfl⟩

/-- Claim C10: `HistogramImpl::used()` is unconditionally `true` — in
particular on a histogram on which `recordValue` was never called — and
`recordValue(v)` only issues the single store call
`deliverHistogramToSinks(*this, v)`, leaving the histogram's own observable
state (the full record, hence `name` and `used`) unchanged. -/
theorem histogramImpl_used_and_forward (h : HistogramImpl) (v : Nat) :
    h.used = true
    ∧ (h.recordValue v).1 = h
    ∧ (h.recordValue v).2 = [StoreCall.deliverHistogramToSinksNamed h.name v]
    ∧ (h.recordValue v).1.name = h.name
    ∧ (h.recordValue v).1.used = h.used :=
  ⟨rfl, rfl, rfl, rfl, rfl⟩

/-! ### Character-class facts about the numeric rendering -/

theorem digitChar_toNat_bounds (n : Nat) :
    48 ≤ (digitChar n).toNat ∧ (digitChar n).toNat ≤ 57 := by
  have h10 : n % 10 < 10 := Nat.mod_lt _ (by norm_num)
  have hall : ∀ k, k < 10 →
      48 ≤ (Char.ofNat (48 + k)).toNat ∧ (Char.ofNat (48 + k)).toNat ≤ 57 := by decide
  exact hall _ h10

theorem natCharsAux_toNat_bounds :
    ∀ (fuel n : Nat), ∀ c ∈ natCharsAux fuel n, 48 ≤ c.toNat ∧ c.toNat ≤ 57 := by
  intro fuel
  induction fuel with
  | zero => intro n c hc; simp [natCharsAux] at hc
  | succ fuel ih =>
    intro n c hc
    by_cases h : n < 10
    · simp only [natCharsAux, if_pos h, List.mem_singleton] at hc
      subst hc
      exact digitChar_toNat_bounds n
    · simp only [natCharsAux, if_neg h, List.mem_append, List.mem_singleton] at hc
      rcases hc with hc | hc
      · exact ih _ c hc
      · subst hc
        exact digitChar_toNat_bounds (n % 10)

theorem natChars_toNat_bounds (n : Nat) :
    ∀ c ∈ natChars n, 48 ≤ c.toNat ∧ c.toNat ≤ 57 :=
  natCharsAux_toNat_bounds (n + 1) n

/-- Every character a numeric value renders to lies in the ASCII range
45–57 (`-`, `.`, `/`, digits). -/
theorem fmtChars_toNat_bounds (q : ℚ) :
    ∀ c ∈ fmtChars q, 45 ≤ c.toNat ∧ c.toNat ≤ 57 := by
  intro c hc
  have hsign : ∀ x ∈ (if q < 0 then (['-'] : Chars) else []), 45 ≤ x.toNat ∧ x.toNat ≤ 57 := by
    intro x hx
    by_cases h : q < 0
    · rw [if_pos h] at hx
      rcases List.mem_singleton.mp hx with rfl
      exact ⟨by decide, by decide⟩
    · rw [if_neg h] at hx
      exact absurd hx (List.not_mem_nil x)
  have hdig : ∀ m : Nat, ∀ x ∈ natChars m, 45 ≤ x.toNat ∧ x.toNat ≤ 57 := by
    intro m x hx
    have := natChars_toNat_bounds m x hx
    omega
  unfold fmtChars at hc
  rcases hd : decExp q.den with _ | k
  · rw [hd] at hc
    simp only [List.mem_append, List.mem_cons] at hc
    rcases hc with (hc | hc) | hc | hc
    · exact hsign c hc
    · exact hdig _ c hc
    · subst hc; exact ⟨by decide, by decide⟩
    · exact hdig _ c hc
  · rcases k with _ | k
    · rw [hd] at hc
      simp only [List.mem_append] at hc
      rcases hc with hc | hc
      · exact hsign c hc
      · exact hdig _ c hc
    · rw [hd] at hc
      simp only [List.mem_append, List.mem_cons] at hc
      have hpad : ∀ x ∈ List.replicate (k + 2 - (natChars (q.num.natAbs * 10 ^ (k + 1) / q.den)).length) '0' ++
          natChars (q.num.natAbs * 10 ^ (k + 1) / q.den), 45 ≤ x.toNat ∧ x.toNat ≤ 57 := by
        intro x hx
        rcases List.mem_append.mp hx with hx | hx
        · rcases List.eq_of_mem_replicate hx with rfl
          exact ⟨by decide, by decide⟩
        · exact hdig _ x hx
      rcases hc with (hc | hc) | hc | hc
      · exact hsign c hc
      · exact hpad c (List.take_subset _ _ hc)
      · subst hc; exact ⟨by decide, by decide⟩
      · exact hpad c (List.drop_subset _ _ hc)

theorem comma_not_mem_fmtChars (q : ℚ) : ',' ∉ fmtChars q := by
  intro h
  have := fmtChars_toNat_bounds q ',' h
  revert this
  decide

theorem colon_not_mem_fmtChars (q : ℚ) : ':' ∉ fmtChars q := by
  intro h
  have := fmtChars_toNat_bounds q ':' h
  revert this
  decide

/-! ### Join/split round-trip facts -/

theorem split2_of_not_mem {c d : Char} : ∀ {p : Chars}, c ∉ p → split2 c d p = [p] := by
  intro p
  induction p with
  | nil => intro; rfl
  | cons x t ih =>
    intro hx
    have hxc : x ≠ c := fun h => hx (h ▸ List.mem_cons_self x t)
    cases t with
    | nil => rfl
    | cons y rest =>
      have hcond : ¬(x = c ∧ y = d) := fun h => hxc h.1
      have ht : c ∉ y :: rest := fun h => hx (List.mem_cons_of_mem x h)
      simp only [split2, if_neg hcond, ih ht]

theorem split2_cons_sep (c d : Char) (t : Chars) :
    split2 c d (c :: d :: t) = [] :: split2 c d t := by
  simp [split2]

theorem split2_append {c d : Char} :
    ∀ {p : Chars} (t : Chars), c ∉ p → split2 c d (p ++ c :: d :: t) = p :: split2 c d t := by
  intro p
  induction p with
  | nil =>
    intro t _
    rw [List.nil_append]
    exact split2_cons_sep c d t
  | cons x p' ih =>
    intro t hx
    have hxc : x ≠ c := fun h => hx (h ▸ List.mem_cons_self x p')
    have hp' : c ∉ p' := fun h => hx (List.mem_cons_of_mem x h)
    cases p' with
    | nil =>
      have hcond : ¬(x = c ∧ c = d) := fun h => hxc h.1
      simp only [List.cons_append, List.nil_append, split2, if_neg hcond]
      simp
    | cons z p'' =>
      have hcond : ¬(x = c ∧ z = d) := fun h => hxc h.1
      have hrec := ih t hp'
      simp only [List.cons_append] at hrec ⊢
      simp only [split2, if_neg hcond, hrec]

theorem joinSep_cons_cons (sep : Chars) (p q : Chars) (ps : List Chars) :
    joinSep sep (p :: q :: ps) = p ++ sep ++ joinSep sep (q :: ps) := rfl

theorem split2_joinSep {c d : Char} :
    ∀ {ps : List Chars}, ps ≠ [] → (∀ p ∈ ps, c ∉ p) →
      split2 c d (joinSep [c, d] ps) = ps := by
  intro ps
  induction ps with
  | nil => intro h; exact absurd rfl h
  | cons p ps ih =>
    intro _ hall
    cases ps with
    | nil => exact split2_of_not_mem (hall p (List.mem_cons_self p []))
    | cons q ps' =>
      rw [joinSep_cons_cons]
      have : p ++ [c, d] ++ joinSep [c, d] (q :: ps') =
          p ++ c :: d :: joinSep [c, d] (q :: ps') := by
        simp [List.append_assoc]
      rw [this, split2_append _ (hall p (List.mem_cons_self p _)),
        ih (List.cons_ne_nil q ps') (fun r hr => hall r (List.mem_cons_of_mem p hr))]

/-! ### Indexed loops as zipWith -/

theorem range_map_getD_eq_zipWith {α β γ : Type} (g : α → β → γ) (da : α) (db : β) :
    ∀ (as : List α) (bs : List β), as.length = bs.length →
      (List.range as.length).map (fun i => g (as.getD i da) (bs.getD i db)) =
        List.zipWith g as bs := by
  intro as
  induction as with
  | nil => intro bs _; rfl
  | cons a as ih =>
    intro bs hlen
    cases bs with
    | nil => simp at hlen
    | cons b bs =>
      have hlen' : as.length = bs.length := by simpa using hlen
      simp only [List.length_cons, List.range_succ_eq_map, List.map_cons, List.map_map,
        List.getD_cons_zero, List.zipWith_cons_cons]
      refine congrArg _ ?_
      rw [← ih bs hlen']
      refine List.map_congr_left ?_
      intro i _
      simp [Function.comp, List.getD_cons_succ]

theorem mem_zipWith {α β γ : Type} {f : α → β → γ} :
    ∀ {as : List α} {bs : List β} {x : γ}, x ∈ List.zipWith f as bs →
      ∃ a b, a ∈ as ∧ b ∈ bs ∧ x = f a b := by
  intro as
  induction as with
  | nil => intro bs x hx; simp at hx
  | cons a as ih =>
    intro bs x hx
    cases bs with
    | nil => simp at hx
    | cons b bs =>
      rcases List.mem_cons.mp hx with rfl | hx'
      · exact ⟨a, b, List.mem_cons_self _ _, List.mem_cons_self _ _, rfl⟩
      · rcases ih hx' with ⟨a', b', ha, hb, hxe⟩
        exact ⟨a', b', List.mem_cons_of_mem a ha, List.mem_cons_of_mem b hb, hxe⟩

/-- Claim C6: on a snapshot whose computed-quantile vector has the length of
its supported-quantile vector (the documented invariant) and whose supported
quantiles are ascending, `quantileSummary()` is exactly the pairs
`P<quantile×100>: <value>` — one per supported quantile, paired with the
computed value at the same index — joined by `", "`, and the rendered
percentile sequence (each quantile multiplied by 100) is ascending. -/
theorem quantileSummary_renders_pairs (s : HistogramStatisticsImpl)
    (hlen : s.supportedQuantiles.length = s.computed_quantiles_.length)
    (hsorted : List.Sorted (· ≤ ·) s.supportedQuantiles) :
    s.quantileSummary = joinSep [',', ' ']
      (List.zipWith (fun q v => 'P' :: fmtChars (100 * q) ++ ':' :: ' ' :: fmtChars v)
        s.supportedQuantiles s.computed_quantiles_)
    ∧ List.Sorted (· ≤ ·) (s.supportedQuantiles.map (fun q => 100 * q)) := by
  constructor
  · unfold HistogramStatisticsImpl.quantileSummary
    exact congrArg (joinSep [',', ' '])
      (range_map_getD_eq_zipWith
        (fun q v => 'P' :: fmtChars (100 * q) ++ ':' :: ' ' :: fmtChars v) 0 0
        s.supportedQuantiles s.computed_quantiles_ hlen)
  · refine List.Pairwise.map _ ?_ hsorted
    intro a b hab
    exact mul_le_mul_of_nonneg_left hab (by norm_num)

/-- A concrete well-formed snapshot for the C6 witness. -/
def snapshotA : HistogramStatisticsImpl :=
  { options_ := { supported_quantiles_ := [0, mkRat 1 2, 1], supported_buckets_ := [10] }
    computed_quantiles_ := [1, 2, 3]
    computed_buckets_ := [7]
    sample_count_ := 3
    sample_sum_ := 6 }

/-- Witness for C6 at `snapshotA`. -/
theorem quantileSummary_renders_pairs_witness :
    (snapshotA.supportedQuantiles.length = snapshotA.computed_quantiles_.length
      ∧ List.Sorted (· ≤ ·) snapshotA.supportedQuantiles)
    ∧ (snapshotA.quantileSummary = joinSep [',', ' ']
        (List.zipWith (fun q v => 'P' :: fmtChars (100 * q) ++ ':' :: ' ' :: fmtChars v)
          snapshotA.supportedQuantiles snapshotA.computed_quantiles_)
      ∧ List.Sorted (· ≤ ·) (snapshotA.supportedQuantiles.map (fun q => 100 * q))) :=
  ⟨⟨rfl, by decide⟩, quantileSummary_renders_pairs snapshotA rfl (by decide)⟩

/-- The two-piece decomposition of one rendered bucket entry. -/
theorem split2_bucket_piece (b k : ℚ) :
    split2 ':' ' ' ('B' :: fmtChars b ++ ':' :: ' ' :: fmtChars k) =
      ['B' :: fmtChars b, fmtChars k] := by
  have hb : ':' ∉ 'B' :: fmtChars b := by
    intro h
    rcases List.mem_cons.mp h with h | h
    · exact absurd h (by decide)
    · exact colon_not_mem_fmtChars b h
  rw [split2_append (fmtChars k) hb, split2_of_not_mem (colon_not_mem_fmtChars k)]

/-- No rendered bucket entry contains a comma. -/
theorem comma_not_mem_bucket_piece (b k : ℚ) :
    ',' ∉ 'B' :: fmtChars b ++ ':' :: ' ' :: fmtChars k := by
  intro h
  rcases List.mem_append.mp h with h | h
  · rcases List.mem_cons.mp h with h | h
    · exact absurd h (by decide)
    · exact comma_not_mem_fmtChars b h
  · rcases List.mem_cons.mp h with h | h
    · exact absurd h (by decide)
    · rcases List.mem_cons.mp h with h | h
      · exact absurd h (by decide)
      · exact comma_not_mem_fmtChars k h

/-- Claim C7: on a snapshot whose computed-bucket vector has the length of its
supported-bucket vector (the documented invariant; the supported list is
never empty for options built by the constructor), splitting
`bucketSummary()` on `", "` and then each piece on `": "` recovers, in the
configured order, the piece `B<bound>` for each configured bucket upper
bound paired with the rendering of the corresponding entry of
`computedBuckets()`. -/
theorem bucketSummary_roundtrip (s : HistogramStatisticsImpl)
    (hlen : s.supportedBuckets.length = s.computed_buckets_.length)
    (hne : s.supportedBuckets ≠ []) :
    (split2 ',' ' ' s.bucketSummary).map (split2 ':' ' ') =
      List.zipWith (fun b k => ['B' :: fmtChars b, fmtChars k])
        s.supportedBuckets s.computed_buckets_ := by
  have hpieces : s.bucketSummary = joinSep [',', ' ']
      (List.zipWith (fun b k => 'B' :: fmtChars b ++ ':' :: ' ' :: fmtChars k)
        s.supportedBuckets s.computed_buckets_) := by
    unfold HistogramStatisticsImpl.bucketSummary
    exact congrArg (joinSep [',', ' '])
      (range_map_getD_eq_zipWith
        (fun b k => 'B' :: fmtChars b ++ ':' :: ' ' :: fmtChars k) 0 0
        s.supportedBuckets s.computed_buckets_ hlen)
  rw [hpieces, split2_joinSep ?hne ?hcomma]
  case hne =>
    intro h
    rcases List.zipWith_eq_nil_iff.mp h with h | h
    · exact hne h
    · exact hne (List.length_eq_zero.mp (hlen.trans (by rw [h]; rfl)))
  case hcomma =>
    intro p hp
    rcases mem_zipWith hp with ⟨b, k, _, _, rfl⟩
    exact comma_not_mem_bucket_piece b k
  rw [List.map_zipWith]
  simp only [split2_bucket_piece]

/-- A concrete well-formed snapshot for the C7 witness. -/
def snapshotB : HistogramStatisticsImpl :=
  { options_ := { supported_quantiles_ := [mkRat 1 2], supported_buckets_ := [1, 10] }
    computed_quantiles_ := [2]
    computed_buckets_ := [3, 7]
    sample_count_ := 7
    sample_sum_ := 40 }

/-- Witness for C7 at `snapshotB`. -/
theorem bucketSummary_roundtrip_witness :
    (snapshotB.supportedBuckets.length = snapshotB.computed_buckets_.length
      ∧ snapshotB.supportedBuckets ≠ [])
    ∧ (split2 ',' ' ' snapshotB.bucketSummary).map (split2 ':' ' ') =
        List.zipWith (fun b k => ['B' :: fmtChars b, fmtChars k])
          snapshotB.supportedBuckets snapshotB.computed_buckets_ :=
  ⟨⟨rfl, by decide⟩, bucketSummary_roundtrip snapshotB rfl (by decide)⟩

/-! ### Merge algebra of the approximate histogram -/

theorem foldl_insert_eq (l : List ℚ) :
    ∀ acc : ApproximateHistogram,
      l.foldl ApproximateHistogram.insert acc = acc + (l.map binOf : List (ℤ × ℤ)) := by
  induction l with
  | nil =>
    intro acc
    simp
  | cons a t ih =>
    intro acc
    simp only [List.foldl_cons, List.map_cons, ih, ApproximateHistogram.insert]
    rw [← Multiset.cons_coe, Multiset.cons_add, Multiset.add_cons]

theorem fromSamples_eq_coe_map (l : List ℚ) :
    fromSamples l = (l.map binOf : List (ℤ × ℤ)) := by
  rw [fromSamples, foldl_insert_eq l ApproximateHistogram.emptyHist]
  exact zero_add _

theorem foldl_mergeFrom_eq (hs : List ApproximateHistogram) :
    ∀ acc : ApproximateHistogram,
      hs.foldl ApproximateHistogram.mergeFrom acc = acc + hs.sum := by
  induction hs with
  | nil =>
    intro acc
    simp
  | cons h t ih =>
    intro acc
    simp only [List.foldl_cons, ih, ApproximateHistogram.mergeFrom, List.sum_cons, add_assoc]

/-- Claim C8: `mergeFrom` is commutative and associative; merging the
histograms built from any partition of a sample list reproduces the
histogram built from all samples at once; building from any permutation of
the samples yields an identical bin multiset; equal bin multisets give
identical downstream query results (count-below at every threshold, and the
total count); and the total count is exactly the number of inserted
samples. -/
theorem mergeFrom_comm_assoc_partition :
    (∀ a b : ApproximateHistogram, a.mergeFrom b = b.mergeFrom a)
    ∧ (∀ a b c : ApproximateHistogram,
        (a.mergeFrom b).mergeFrom c = a.mergeFrom (b.mergeFrom c))
    ∧ (∀ parts : List (List ℚ),
        (parts.map fromSamples).foldl ApproximateHistogram.mergeFrom
          ApproximateHistogram.emptyHist = fromSamples parts.flatten)
    ∧ (∀ l₁ l₂ : List ℚ, l₁.Perm l₂ → fromSamples l₁ = fromSamples l₂)
    ∧ (∀ a b : ApproximateHistogram, a = b →
        (∀ t, a.countBelow t = b.countBelow t) ∧ a.totalCount = b.totalCount)
    ∧ (∀ l : List ℚ, (fromSamples l).totalCount = l.length) := by
  refine ⟨?_, ?_, ?_, ?_, ?_, ?_⟩
  · intro a b
    exact add_comm a b
  · intro a b c
    exact add_assoc a b c
  · intro parts
    rw [foldl_mergeFrom_eq]
    rw [show ApproximateHistogram.emptyHist = 0 from rfl, zero_add]
    induction parts with
    | nil => simp [fromSamples_eq_coe_map]
    | cons p ts ih =>
      simp only [List.map_cons, List.sum_cons, ih, List.flatten_cons, fromSamples_eq_coe_map,
        List.map_append, ← Multiset.coe_add]
  · intro l₁ l₂ hperm
    rw [fromSamples_eq_coe_map, fromSamples_eq_coe_map]
    exact Multiset.coe_eq_coe.mpr (hperm.map binOf)
  · intro a b hab
    subst hab
    exact ⟨fun _ => rfl, rfl⟩
  · intro l
    rw [fromSamples_eq_coe_map, ApproximateHistogram.totalCount, Multiset.coe_card,
      List.length_map]

/-- Witness for C8: a permuted pair of samples and a two-block partition. -/
theorem mergeFrom_comm_assoc_partition_witness :
    (List.Perm ([1, 2] : List ℚ) [2, 1] ∧ fromSamples [1, 2] = fromSamples [2, 1])
    ∧ (([[1], [2, 3]] : List (List ℚ)).map fromSamples).foldl
        ApproximateHistogram.mergeFrom ApproximateHistogram.emptyHist =
          fromSamples ([[1], [2, 3]] : List (List ℚ)).flatten
    ∧ (fromSamples ([5, 5, 9] : List ℚ)).totalCount = 3 :=
  ⟨⟨by decide, mergeFrom_comm_assoc_partition.2.2.2.1 [1, 2] [2, 1] (by decide)⟩,
   mergeFrom_comm_assoc_partition.2.2.1 [[1], [2, 3]],
   mergeFrom_comm_assoc_partition.2.2.2.2.2 [5, 5, 9]⟩

end EnvoyStats
